import Mathlib

/-!
Verification of the indicator / normalization / aggregation engine of the
stock-analysis repository (internal/calc/indicators.go, internal/calc/engine.go).

Conventions of the shallow embedding:
* Go float64 values that are genuine data (prices, weights) are modelled as ℚ.
* Go float64 values that may be the NaN "undefined" sentinel are modelled as
  Option ℚ, with none playing the role of NaN.  A Go comparison such as
  x > 0 where x may be NaN (NaN compares false) is modelled by matching on the
  Option first.
* math.Sqrt has no counterpart on ℚ; it is passed in as an abstract function
  argument sq : ℚ → ℚ.  No claim under verification depends on the value of a
  square root, only on definedness and lengths, so every theorem quantifies
  over sq.
* Dates (time.Time) are modelled as ℕ and merely passed through, as no claim
  concerns them.
* Go int window parameters are modelled as ℕ.  SMA (and BollingerPercentB,
  which calls it) panics in Go when window = 0 (it writes out[-1]); theorems
  about those functions therefore carry a 1 ≤ window hypothesis.
-/

namespace Stock

/-- A float64 slice that may contain NaN sentinels: indicators.go series. -/
abbrev Series := List (Option ℚ)

/-- Mean of the `window` closes ending at index i, i.e. values[i-window+1..i];
this is the value SMA stores at every defined index (the Go rolling sum
telescopes exactly in ℚ). -/
def windowMean (values : List ℚ) (window i : ℕ) : ℚ :=
  (((values.drop (i + 1 - window)).take window).sum) / window

/-- indicators.go SMA: NaN before index window-1, trailing mean afterwards;
all-NaN when the series is shorter than the window. -/
def SMA (values : List ℚ) (window : ℕ) : Series :=
  if values.length < window then List.replicate values.length none
  else (List.range values.length).map fun i =>
    if i + 1 < window then none else some (windowMean values window i)

/-- Recurrence out[i] = v[i]*k + out[i-1]*(1-k) of indicators.go EMA,
carrying the previous output value. -/
def emaFrom (k : ℚ) (prev : ℚ) : List ℚ → List ℚ
  | [] => []
  | v :: rest =>
    let cur := v * k + prev * (1 - k)
    cur :: emaFrom k cur rest

/-- indicators.go EMA: seeded with the first value, k = 2/(span+1),
defined everywhere (plain ℚ output). -/
def EMA (values : List ℚ) (span : ℕ) : List ℚ :=
  match values with
  | [] => []
  | v0 :: rest => v0 :: emaFrom (2 / ((span : ℚ) + 1)) v0 rest

/-- indicators.go Momentum: values[i]/values[i-window] - 1, NaN for i < window
or when the divisor is zero. -/
def Momentum (values : List ℚ) (window : ℕ) : Series :=
  (List.range values.length).map fun i =>
    if i < window then none
    else if values.getD (i - window) 0 = 0 then none
    else some (values.getD i 0 / values.getD (i - window) 0 - 1)

/-- gains[i] of indicators.go RSI: the positive part of values[i]-values[i-1],
zero at index 0. -/
def rsiGain (values : List ℚ) (i : ℕ) : ℚ :=
  if i = 0 then 0
  else
    let d := values.getD i 0 - values.getD (i - 1) 0
    if 0 < d then d else 0

/-- losses[i] of indicators.go RSI: minus the non-positive part of
values[i]-values[i-1], zero at index 0. -/
def rsiLoss (values : List ℚ) (i : ℕ) : ℚ :=
  if i = 0 then 0
  else
    let d := values.getD i 0 - values.getD (i - 1) 0
    if 0 < d then 0 else -d

/-- Initial average of RSI: the mean of g over indices 1..window. -/
def rsiInitAvg (g : ℕ → ℚ) (window : ℕ) : ℚ :=
  (((List.range window).map fun j => g (j + 1)).sum) / window

/-- Wilder smoothing avg = (prevAvg*(window-1) + current)/window, k steps after
the initial average (so index window+k of the series). -/
def rsiAvgAux (g : ℕ → ℚ) (window : ℕ) (a0 : ℚ) : ℕ → ℚ
  | 0 => a0
  | k + 1 => (rsiAvgAux g window a0 k * ((window : ℚ) - 1) + g (window + (k + 1))) / window

/-- Wilder-smoothed average gain at index i (meaningful for i ≥ window). -/
def rsiAvgGain (values : List ℚ) (window i : ℕ) : ℚ :=
  rsiAvgAux (rsiGain values) window (rsiInitAvg (rsiGain values) window) (i - window)

/-- Wilder-smoothed average loss at index i (meaningful for i ≥ window). -/
def rsiAvgLoss (values : List ℚ) (window i : ℕ) : ℚ :=
  rsiAvgAux (rsiLoss values) window (rsiInitAvg (rsiLoss values) window) (i - window)

/-- indicators.go RSI.  Indices above window use that index's smoothed
averages with rs = 1e9 substituted when avgLoss = 0 < avgGain.  Index window
is written AFTER the smoothing loop in the Go code, so it uses the averages
smoothed through the END of the series (index length-1), not the initial
averages; when the series has exactly window+1 points the two coincide. -/
def RSI (values : List ℚ) (window : ℕ) : Series :=
  if values.length < window + 1 then List.replicate values.length none
  else (List.range values.length).map fun i =>
    if i < window then none
    else if i = window then
      let aG := rsiAvgGain values window (values.length - 1)
      let aL := rsiAvgLoss values window (values.length - 1)
      let rs := if aL ≠ 0 then aG / aL else 0
      if aL = 0 ∧ 0 < aG then some 100 else some (100 - 100 / (1 + rs))
    else
      let aG := rsiAvgGain values window i
      let aL := rsiAvgLoss values window i
      let rs := if aL ≠ 0 then aG / aL else if aG = 0 then 0 else 1000000000
      some (100 - 100 / (1 + rs))

/-- Reference RSI following the spec sentence for claim C3: undefined before
index window; at every index i ≥ window the score is 100 - 100/(1+RS) with
RS = avgGain/avgLoss of THAT index's Wilder-smoothed averages, score = 100
when avgLoss = 0 and avgGain > 0, and RS = 0 when both averages are 0. -/
def wilderRSI (values : List ℚ) (window : ℕ) : Series :=
  if values.length < window + 1 then List.replicate values.length none
  else (List.range values.length).map fun i =>
    if i < window then none
    else
      let aG := rsiAvgGain values window i
      let aL := rsiAvgLoss values window i
      if aL = 0 ∧ 0 < aG then some 100
      else if aL = 0 ∧ aG = 0 then some (100 - 100 / (1 + 0))
      else some (100 - 100 / (1 + aG / aL))

/-- indicators.go MACD: (EMA12 - EMA26) minus its EMA9, defined everywhere. -/
def MACD (values : List ℚ) : List ℚ :=
  let fast := EMA values 12
  let slow := EMA values 26
  let macdLine := List.zipWith (fun a b => a - b) fast slow
  let signal := EMA macdLine 9
  List.zipWith (fun a b => a - b) macdLine signal

/-- returns[i] of indicators.go RealizedVol: simple return, 0 at index 0 and
when the previous value is 0 (the Go slice entry simply stays 0.0). -/
def rvReturn (values : List ℚ) (i : ℕ) : ℚ :=
  if i = 0 then 0
  else if values.getD (i - 1) 0 ≠ 0 then values.getD i 0 / values.getD (i - 1) 0 - 1
  else 0

/-- indicators.go RealizedVol: population standard deviation of the trailing
window of returns, annualized by sqrt 252; NaN for i < window. -/
def RealizedVol (sq : ℚ → ℚ) (values : List ℚ) (window : ℕ) : Series :=
  (List.range values.length).map fun i =>
    if i < window then none
    else
      let rs := (List.range window).map fun j => rvReturn values (i - j)
      let mean := rs.sum / window
      let sqSum := ((rs.map fun r => (r - mean) * (r - mean)).sum)
      some (sq (sqSum / window) * sq 252)

/-- Typical price (H+L+C)/3 of indicators.go MFI. -/
def typicalPrice (high low close : List ℚ) (i : ℕ) : ℚ :=
  (high.getD i 0 + low.getD i 0 + close.getD i 0) / 3

/-- Raw money flow typicalPrice * volume of indicators.go MFI. -/
def rawMoneyFlow (high low close volume : List ℚ) (i : ℕ) : ℚ :=
  typicalPrice high low close i * volume.getD i 0

/-- posFlow[i] of indicators.go MFI: the raw flow when the typical price rose,
0 otherwise (index 0 stays 0). -/
def posFlow (high low close volume : List ℚ) (i : ℕ) : ℚ :=
  if i ≠ 0 ∧ typicalPrice high low close (i - 1) < typicalPrice high low close i
  then rawMoneyFlow high low close volume i else 0

/-- negFlow[i] of indicators.go MFI: the raw flow when the typical price fell,
0 otherwise (ties contribute to neither side). -/
def negFlow (high low close volume : List ℚ) (i : ℕ) : ℚ :=
  if i ≠ 0 ∧ typicalPrice high low close i < typicalPrice high low close (i - 1)
  then rawMoneyFlow high low close volume i else 0

/-- indicators.go MFI: rolling sums of positive/negative flow over the window
ending at i (the Go rolling update telescopes exactly in ℚ), with the 1e9
stand-in when sumNeg = 0 < sumPos. -/
def MFI (high low close volume : List ℚ) (window : ℕ) : Series :=
  if close.length < window + 1 then List.replicate close.length none
  else (List.range close.length).map fun i =>
    if i < window then none
    else
      let sumPos := (((List.range window).map fun j => posFlow high low close volume (i - j)).sum)
      let sumNeg := (((List.range window).map fun j => negFlow high low close volume (i - j)).sum)
      let mfr := if sumNeg ≠ 0 then sumPos / sumNeg else if 0 < sumPos then 1000000000 else 0
      some (100 - 100 / (1 + mfr))

/-- indicators.go BollingerPercentB: midline is the SMA value (= windowMean at
every defined index), population standard deviation over the window, %B with
fallback 0.5 when the bands collapse. -/
def BollingerPercentB (sq : ℚ → ℚ) (close : List ℚ) (window : ℕ) (numStdDev : ℚ) : Series :=
  if close.length < window then List.replicate close.length none
  else (List.range close.length).map fun i =>
    if i + 1 < window then none
    else
      let mid := windowMean close window i
      let sumSq := (((List.range window).map fun j =>
        (close.getD (i - j) 0 - mid) * (close.getD (i - j) 0 - mid)).sum)
      let stdDev := sq (sumSq / window)
      let upper := mid + stdDev * numStdDev
      let lower := mid - stdDev * numStdDev
      if upper ≠ lower then some ((close.getD i 0 - lower) / (upper - lower)) else some (1 / 2)

/-- The positions j of the trailing window at index i: start..i with
start = max 0 (i-window+1), exactly the Go loop bounds of RollingScore. -/
def windowPositions (window i : ℕ) : List ℕ :=
  (List.range (i + 1)).drop (i + 1 - window)

/-- The valid (non-NaN) values in the trailing window at index i, in order:
the buf slice of indicators.go RollingScore before direction scaling. -/
def windowVals (series : Series) (window i : ℕ) : List ℚ :=
  (windowPositions window i).filterMap fun j => series.getD j none

/-- indicators.go RollingScore: NaN where the input is NaN or i < window-1 or
the window holds no valid value; otherwise 100 * (inclusive rank of
values[i]*direction among the direction-scaled valid window values) / (number
of valid window values). -/
def RollingScore (values : Series) (window : ℕ) (direction : ℤ) : Series :=
  (List.range values.length).map fun i =>
    match values.getD i none with
    | none => none
    | some v =>
      if i + 1 < window then none
      else
        let buf := (windowVals values window i).map fun x => x * (direction : ℚ)
        if buf.length = 0 then none
        else
          let countSmaller := (buf.filter fun x => x ≤ v * (direction : ℚ)).length
          some ((countSmaller : ℚ) / (buf.length : ℚ) * 100)

/-- models.Price (types.go): one candle.  The date is an opaque passthrough
modelled as ℕ; the Open field is never read by the engine but kept for
structural fidelity. -/
structure Price where
  date : ℕ
  openP : ℚ
  high : ℚ
  low : ℚ
  close : ℚ
  volume : ℚ
deriving Repr, DecidableEq, Inhabited

/-- calc.Config (engine.go). -/
structure Config where
  NormWindow : ℕ
  MAFast : ℕ
  MASlow : ℕ
  MomWindow : ℕ
  VolWindow : ℕ
  RSIWindow : ℕ
  DDWindow : ℕ
deriving Repr, DecidableEq, Inhabited

/-- calc.DefaultConfig (engine.go). -/
def DefaultConfig : Config :=
  { NormWindow := 252, MAFast := 20, MASlow := 60, MomWindow := 20,
    VolWindow := 20, RSIWindow := 14, DDWindow := 252 }

/-- calc.Weights (engine.go): the weight map; a missing key yields 0, like a
Go map lookup. -/
def Weights (key : String) : ℚ :=
  if key = "trend" then 15 / 100
  else if key = "momentum" then 15 / 100
  else if key = "rsi" then 10 / 100
  else if key = "macd" then 10 / 100
  else if key = "drawdown" then 10 / 100
  else if key = "volatility" then 10 / 100
  else if key = "mfi" then 15 / 100
  else if key = "bb_pct_b" then 15 / 100
  else 0

/-- The eight normalized sub-scores of a models.ScoreResult (the Values
struct; the never-assigned VolSent field is omitted as it takes no part in
the aggregation). -/
structure SubScores where
  trend : Option ℚ
  momentum : Option ℚ
  rsi : Option ℚ
  macd : Option ℚ
  drawdown : Option ℚ
  vol : Option ℚ
  mfi : Option ℚ
  bb : Option ℚ
deriving Repr, DecidableEq, Inhabited

/-- The raw-indicator fields of a models.ScoreResult that engine.go assigns
(the VolSent, MFI and BB raw fields are never assigned and are omitted). -/
structure RawValues where
  trend : Option ℚ
  momentum : Option ℚ
  rsi : Option ℚ
  macd : Option ℚ
  drawdown : Option ℚ
  vol : Option ℚ
deriving Repr, DecidableEq, Inhabited

/-- models.ScoreResult (types.go), restricted to the fields engine.go fills. -/
structure ScoreResult where
  date : ℕ
  score : Option ℚ
  label : String
  price : ℚ
  values : SubScores
  raw : RawValues
deriving Repr, DecidableEq, Inhabited

/-- One step of the add closure in engine.go Compute: skip a NaN sub-score,
otherwise accumulate val*weight into scoreSum and weight into wSum. -/
def aggAdd (acc : ℚ × ℚ) (w : ℚ) (val : Option ℚ) : ℚ × ℚ :=
  match val with
  | none => acc
  | some v => (acc.1 + v * w, acc.2 + w)

/-- The (weight, sub-score) pairs in the exact order of the add calls in
engine.go Compute. -/
def subPairs (s : SubScores) : List (ℚ × Option ℚ) :=
  [(Weights "trend", s.trend), (Weights "momentum", s.momentum),
   (Weights "rsi", s.rsi), (Weights "macd", s.macd),
   (Weights "drawdown", s.drawdown), (Weights "volatility", s.vol),
   (Weights "mfi", s.mfi), (Weights "bb_pct_b", s.bb)]

/-- The weighted aggregation of engine.go Compute: scoreSum/wSum when
wSum > 0, NaN otherwise. -/
def aggregate (s : SubScores) : Option ℚ :=
  let acc := (subPairs s).foldl (fun acc p => aggAdd acc p.1 p.2) (0, 0)
  if 0 < acc.2 then some (acc.1 / acc.2) else none

/-- engine.go LabelFromScore: NaN maps to "-", lang "en" selects the English
table, every other language falls through to the Chinese table. -/
def LabelFromScore (s : Option ℚ) (lang : String) : String :=
  match s with
  | none => "-"
  | some s =>
    if lang = "en" then
      if s < 25 then "Extreme Fear"
      else if s < 45 then "Fear"
      else if s ≤ 55 then "Neutral"
      else if s ≤ 75 then "Greed"
      else "Extreme Greed"
    else
      if s < 25 then "极度恐惧"
      else if s < 45 then "恐惧"
      else if s ≤ 55 then "中性"
      else if s ≤ 75 then "贪婪"
      else "极度贪婪"

/-- One term of the trend raw indicator in engine.go Compute: close/MA - 1
when the MA is defined and positive (a Go NaN > 0 comparison is false, so a
NaN MA also yields 0), else 0. -/
def trendTerm (c : ℚ) (ma : Option ℚ) : ℚ :=
  match ma with
  | some m => if 0 < m then c / m - 1 else 0
  | none => 0

/-- The trendRaw series of engine.go Compute: 0.5*t1 + 0.5*t2; always a plain
number, never NaN. -/
def trendRawSeries (closes : List ℚ) (maFast maSlow : Series) : List ℚ :=
  (List.range closes.length).map fun i =>
    (5 / 10) * trendTerm (closes.getD i 0) (maFast.getD i none) +
    (5 / 10) * trendTerm (closes.getD i 0) (maSlow.getD i none)

/-- The rolling maximum of engine.go Compute's drawdown block: fold of
"if closes[j] > maxP then closes[j]" over the window positions, seeded 0. -/
def runMax (closes : List ℚ) (window i : ℕ) : ℚ :=
  (windowPositions window i).foldl
    (fun acc j => if acc < closes.getD j 0 then closes.getD j 0 else acc) 0

/-- The ddRaw series of engine.go Compute: close/runningMax - 1 when the
running maximum is positive, else the zero the slice was initialized with;
always a plain number, never NaN. -/
def ddRawSeries (closes : List ℚ) (window : ℕ) : List ℚ :=
  (List.range closes.length).map fun i =>
    if 0 < runMax closes window i then closes.getD i 0 / runMax closes window i - 1 else 0

/-- The close slice engine.go Compute extracts from the PriceFrame. -/
def closesOf (prices : List Price) : List ℚ := prices.map fun p => p.close

/-- The volume slice engine.go Compute extracts. -/
def volumesOf (prices : List Price) : List ℚ := prices.map fun p => p.volume

/-- The high slice engine.go Compute extracts. -/
def highsOf (prices : List Price) : List ℚ := prices.map fun p => p.high

/-- The low slice engine.go Compute extracts. -/
def lowsOf (prices : List Price) : List ℚ := prices.map fun p => p.low

/-- The normalization-window clamp of engine.go Compute: shrink to the series
length, then floor at 10. -/
def normWindowOf (prices : List Price) (cfg : Config) : ℕ :=
  let nw0 := if prices.length < cfg.NormWindow then prices.length else cfg.NormWindow
  if nw0 < 10 then 10 else nw0

/-- The trendRaw slice of engine.go Compute. -/
def trendRawOf (prices : List Price) (cfg : Config) : List ℚ :=
  trendRawSeries (closesOf prices) (SMA (closesOf prices) cfg.MAFast)
    (SMA (closesOf prices) cfg.MASlow)

/-- The ddRaw slice of engine.go Compute. -/
def ddRawOf (prices : List Price) (cfg : Config) : List ℚ :=
  ddRawSeries (closesOf prices) cfg.DDWindow

/-- The eight normalized sub-scores of bar i in engine.go Compute: each raw
series put through RollingScore with the clamped window, direction -1 for
volatility and +1 for the rest (MFI window and Bollinger parameters are the
hard-coded 14 and 20, 2.0). -/
def subScoresAt (sq : ℚ → ℚ) (prices : List Price) (cfg : Config) (i : ℕ) : SubScores :=
  { trend := (RollingScore ((trendRawOf prices cfg).map some) (normWindowOf prices cfg) 1).getD i none,
    momentum := (RollingScore (Momentum (closesOf prices) cfg.MomWindow) (normWindowOf prices cfg) 1).getD i none,
    rsi := (RollingScore (RSI (closesOf prices) cfg.RSIWindow) (normWindowOf prices cfg) 1).getD i none,
    macd := (RollingScore ((MACD (closesOf prices)).map some) (normWindowOf prices cfg) 1).getD i none,
    drawdown := (RollingScore ((ddRawOf prices cfg).map some) (normWindowOf prices cfg) 1).getD i none,
    vol := (RollingScore (RealizedVol sq (closesOf prices) cfg.VolWindow) (normWindowOf prices cfg) (-1)).getD i none,
    mfi := (RollingScore (MFI (highsOf prices) (lowsOf prices) (closesOf prices) (volumesOf prices) 14) (normWindowOf prices cfg) 1).getD i none,
    bb := (RollingScore (BollingerPercentB sq (closesOf prices) 20 2) (normWindowOf prices cfg) 1).getD i none }

/-- The ScoreResult engine.go Compute builds for bar i: aggregate the defined
sub-scores, label the score (the wSum = 0 branch stores "-"). -/
def scoreRecordAt (sq : ℚ → ℚ) (prices : List Price) (cfg : Config) (lang : String)
    (i : ℕ) : ScoreResult :=
  let vals := subScoresAt sq prices cfg i
  let score := aggregate vals
  { date := (prices.getD i default).date,
    score := score,
    label := match score with
      | some sc => LabelFromScore (some sc) lang
      | none => "-",
    price := (closesOf prices).getD i 0,
    values := vals,
    raw :=
      { trend := some ((trendRawOf prices cfg).getD i 0),
        momentum := (Momentum (closesOf prices) cfg.MomWindow).getD i none,
        rsi := (RSI (closesOf prices) cfg.RSIWindow).getD i none,
        macd := some ((MACD (closesOf prices)).getD i 0),
        drawdown := some ((ddRawOf prices cfg).getD i 0),
        vol := (RealizedVol sq (closesOf prices) cfg.VolWindow).getD i none } }

/-- engine.go Compute: the full pipeline, one ScoreResult per input bar,
nil (here []) for empty input. -/
def Compute (sq : ℚ → ℚ) (prices : List Price) (cfg : Config) (lang : String) :
    List ScoreResult :=
  if prices.length = 0 then []
  else (List.range prices.length).map (scoreRecordAt sq prices cfg lang)

/-- The number m of valid (non-NaN) values in the trailing window at index i,
as the spec and claims C2, C5, C9 describe it. -/
def validCount (series : Series) (window i : ℕ) : ℕ :=
  (windowVals series window i).length

/-- The inclusive rank c of claim C2: how many valid window values, after
multiplication by the direction, are ≤ v * direction. -/
def rankLE (series : Series) (window i : ℕ) (direction : ℤ) (v : ℚ) : ℕ :=
  ((windowVals series window i).filter fun x =>
    x * (direction : ℚ) ≤ v * (direction : ℚ)).length

/-- The numerator of claim C1: the sum of subScore*weight over the defined
sub-scores of the listed pairs. -/
def definedWeightedSum (l : List (ℚ × Option ℚ)) : ℚ :=
  (l.filterMap fun p => p.2.map fun v => v * p.1).sum

/-- The denominator of claim C1: the sum of the weights of exactly the
defined sub-scores of the listed pairs. -/
def definedWeightSum (l : List (ℚ × Option ℚ)) : ℚ :=
  ((l.filter fun p => p.2.isSome).map Prod.fst).sum

/-- No sub-score of the bar is defined (claim C1's undefinedness condition). -/
def AllNone (s : SubScores) : Prop :=
  s.trend = none ∧ s.momentum = none ∧ s.rsi = none ∧ s.macd = none ∧
  s.drawdown = none ∧ s.vol = none ∧ s.mfi = none ∧ s.bb = none

instance (s : SubScores) : Decidable (AllNone s) := by
  unfold AllNone
  infer_instance

/-! ## Generic lemmas about the embedding -/

lemma getD_map_range {α : Type} (f : ℕ → α) {n i : ℕ} (d : α) (h : i < n) :
    ((List.range n).map f).getD i d = f i := by
  rw [List.getD_eq_getElem?_getD, List.getElem?_map, List.getElem?_range h]
  rfl

lemma getD_map_range_of_ge {α : Type} (f : ℕ → α) {n i : ℕ} (d : α) (h : n ≤ i) :
    ((List.range n).map f).getD i d = d := by
  rw [List.getD_eq_getElem?_getD, List.getElem?_eq_none (by simpa using h), Option.getD_none]

lemma windowPositions_zero (i : ℕ) : windowPositions 0 i = [] := by
  have h : (List.range (i + 1)).length ≤ i + 1 - 0 := by simp
  simp [windowPositions, List.drop_eq_nil_of_le h]

lemma mem_windowPositions_self {w : ℕ} (i : ℕ) (hw : 1 ≤ w) : i ∈ windowPositions w i := by
  unfold windowPositions
  have hk : i + 1 - w ≤ i := by omega
  have hlen : ((List.range (i + 1)).drop (i + 1 - w)).length = i + 1 - (i + 1 - w) := by simp
  have hj : i - (i + 1 - w) < ((List.range (i + 1)).drop (i + 1 - w)).length := by omega
  have : ((List.range (i + 1)).drop (i + 1 - w))[i - (i + 1 - w)] = i := by
    rw [List.getElem_drop]
    rw [List.getElem_range]
    omega
  have hmem := List.getElem_mem hj
  rw [this] at hmem
  exact hmem

lemma self_mem_windowVals {series : Series} {w i : ℕ} {v : ℚ}
    (hv : series.getD i none = some v) (hw : 1 ≤ w) : v ∈ windowVals series w i := by
  unfold windowVals
  exact List.mem_filterMap.mpr ⟨i, mem_windowPositions_self i hw, hv⟩

lemma validCount_pos_w {series : Series} {w i : ℕ} (hm : validCount series w i ≠ 0) : 1 ≤ w := by
  by_contra hw
  have hw0 : w = 0 := by omega
  subst hw0
  exact hm (by simp [validCount, windowVals, windowPositions_zero])

/-- The single hinge of the RollingScore characterization: the value the Go
loop stores at a valid index i. -/
lemma rollingScore_getD {values : Series} {window : ℕ} {direction : ℤ} {i : ℕ}
    (h : i < values.length) :
    (RollingScore values window direction).getD i none =
      match values.getD i none with
      | none => none
      | some v =>
        if i + 1 < window then none
        else if validCount values window i = 0 then none
        else some ((rankLE values window i direction v : ℚ) /
          (validCount values window i : ℚ) * 100) := by
  unfold RollingScore
  rw [getD_map_range _ _ h]
  cases hv : values.getD i none with
  | none => rfl
  | some v =>
    simp only
    by_cases hs : i + 1 < window
    · simp [hs]
    · simp only [if_neg hs]
      have hbuf : ((windowVals values window i).map fun x => x * (direction : ℚ)).length =
          validCount values window i := by
        simp [validCount]
      by_cases hm : validCount values window i = 0
      · simp [hbuf, hm]
      · rw [if_neg (by omega), if_neg (by simpa [hbuf] using hm)]
        have hc : (((windowVals values window i).map fun x => x * (direction : ℚ)).filter
            fun x => x ≤ v * (direction : ℚ)).length = rankLE values window i direction v := by
          rw [List.filter_map]
          simp [rankLE, Function.comp_def]
        rw [hbuf, hc]

lemma rollingScore_getD_of_ge {values : Series} {window : ℕ} {direction : ℤ} {i : ℕ}
    (h : values.length ≤ i) :
    (RollingScore values window direction).getD i none = none := by
  unfold RollingScore
  exact getD_map_range_of_ge _ _ h

/-- Evaluation form of rollingScore_getD for the defined case. -/
lemma rollingScore_getD_concrete {values : Series} {window : ℕ} {direction : ℤ} {i : ℕ}
    {v : ℚ} (h : i < values.length) (hv : values.getD i none = some v)
    (hs : ¬ i + 1 < window) (hm : validCount values window i ≠ 0) :
    (RollingScore values window direction).getD i none =
      some ((rankLE values window i direction v : ℚ) /
        (validCount values window i : ℚ) * 100) := by
  rw [rollingScore_getD h, hv]
  simp only [if_neg hs, if_neg hm]

/-! ## Claim C2 -/

/-- Claim C2, counterexample input: the normalizer output at index 3 of
[NaN, 1, 2, NaN] with window 2 is undefined even though 3 ≥ window-1 and the
trailing window {positions 2,3} holds one valid value: the Go code skips any
index whose own input value is NaN, a case the claim does not except. -/
theorem C2_counterexample :
    (RollingScore [none, some 1, some 2, none] 2 1).getD 3 none = none ∧
    ¬ (3 : ℕ) < 2 - 1 ∧
    validCount [none, some 1, some 2, none] 2 3 = 1 := by
  refine ⟨?_, by omega, ?_⟩
  · have h3 : (3 : ℕ) < ([none, some 1, some 2, none] : Series).length := by simp
    rw [rollingScore_getD h3]
    rfl
  · simp [validCount, windowVals, windowPositions, List.range_succ]

/-- Claim C2 (amended): additionally to i < window-1 and an all-invalid
window, the output is undefined when series[i] itself is undefined; in the
remaining cases it equals 100*c/m with c the inclusive direction-multiplied
rank and m the valid count of the trailing window. -/
theorem C2_rollingScore_characterization (series : Series) (window : ℕ) (direction : ℤ)
    (i : ℕ) (h : i < series.length) :
    ((RollingScore series window direction).getD i none = none ↔
      (series.getD i none = none ∨ i + 1 < window ∨ validCount series window i = 0)) ∧
    (∀ v : ℚ, series.getD i none = some v → ¬ i + 1 < window →
      validCount series window i ≠ 0 →
      (RollingScore series window direction).getD i none =
        some (100 * (rankLE series window i direction v : ℚ) /
          (validCount series window i : ℚ))) := by
  constructor
  · rw [rollingScore_getD h]
    cases hv : series.getD i none with
    | none => simp
    | some v =>
      simp only
      by_cases hs : i + 1 < window
      · simp [hs]
      · by_cases hm : validCount series window i = 0
        · simp [hs, hm]
        · simp [hs, hm]
  · intro v hv hs hm
    rw [rollingScore_getD h, hv]
    simp only [if_neg hs, if_neg hm]
    congr 1
    ring

/-- Witness for C2: at series [1, 2] with window 2 and direction +1 the value
at index 1 is defined and equals 100*2/2 = 100. -/
theorem C2_witness :
    (RollingScore [some 1, some 2] 2 1).getD 1 none =
      some (100 * (rankLE [some 1, some 2] 2 1 1 2 : ℚ) /
        (validCount [some 1, some 2] 2 1 : ℚ)) := by
  refine (C2_rollingScore_characterization [some 1, some 2] 2 1 1 (by simp)).2 2 rfl
    (by omega) ?_
  simp [validCount, windowVals, windowPositions, List.range_succ]

/-! ## Claim C9 -/

/-- Claim C9: a defined normalized sub-score is at least 100/m, in particular
strictly positive, because the current value counts itself in the inclusive
rank; the attainable range is (0,100], never 0. -/
theorem C9_rollingScore_defined_pos (series : Series) (window : ℕ) (direction : ℤ)
    (i : ℕ) (v : ℚ) (hv : (RollingScore series window direction).getD i none = some v) :
    100 / (validCount series window i : ℚ) ≤ v ∧ 0 < v := by
  have h : i < series.length := by
    by_contra hlen
    rw [rollingScore_getD_of_ge (by omega)] at hv
    exact Option.noConfusion hv
  rw [rollingScore_getD h] at hv
  cases hx : series.getD i none with
  | none => rw [hx] at hv; exact Option.noConfusion hv
  | some x =>
    rw [hx] at hv
    simp only at hv
    by_cases hs : i + 1 < window
    · rw [if_pos hs] at hv; exact Option.noConfusion hv
    · rw [if_neg hs] at hv
      by_cases hm : validCount series window i = 0
      · rw [if_pos hm] at hv; exact Option.noConfusion hv
      · rw [if_neg hm] at hv
        have hveq : v = (rankLE series window i direction x : ℚ) /
            (validCount series window i : ℚ) * 100 := (Option.some.injEq _ _).mp hv.symm
        have hw : 1 ≤ window := validCount_pos_w hm
        have hxmem : x ∈ windowVals series window i := self_mem_windowVals hx hw
        have hrank : 1 ≤ rankLE series window i direction x := by
          have : x ∈ (windowVals series window i).filter
              fun y => y * (direction : ℚ) ≤ x * (direction : ℚ) := by
            exact List.mem_filter.mpr ⟨hxmem, by simp⟩
          have hne : ((windowVals series window i).filter
              fun y => y * (direction : ℚ) ≤ x * (direction : ℚ)) ≠ [] :=
            List.ne_nil_of_mem this
          have := List.length_pos.mpr hne
          unfold rankLE
          omega
        have hmQ : (0 : ℚ) < (validCount series window i : ℚ) := by
          exact_mod_cast Nat.pos_of_ne_zero hm
        have hrankQ : (1 : ℚ) ≤ (rankLE series window i direction x : ℚ) := by
          exact_mod_cast hrank
        constructor
        · rw [hveq, div_mul_eq_mul_div]
          exact (div_le_div_iff_of_pos_right hmQ).mpr (by nlinarith)
        · rw [hveq]
          positivity

/-- Witness for C9: the defined score 100 at index 0 of the singleton series
[5] with window 1 is ≥ 100/1 and positive. -/
theorem C9_witness :
    (RollingScore [some 5] 1 1).getD 0 none = some 100 ∧
    (100 / (validCount [some 5] 1 0 : ℚ) ≤ 100 ∧ (0 : ℚ) < 100) := by
  have h1 : validCount [some 5] 1 0 = 1 := by
    simp [validCount, windowVals, windowPositions, List.range_succ]
  have h2 : rankLE [some 5] 1 0 1 5 = 1 := by
    simp [rankLE, windowVals, windowPositions, List.range_succ]
  have hv5 : ([some 5] : Series).getD 0 none = some 5 := by simp [List.getD]
  have hval : (RollingScore [some 5] 1 1).getD 0 none = some 100 := by
    rw [rollingScore_getD_concrete (by simp) hv5 (by omega) (by omega), h1, h2]
    norm_num
  exact ⟨hval, C9_rollingScore_defined_pos [some 5] 1 1 0 100 hval⟩

/-! ## Claim C5 -/

/-- In a list avoiding v, every element is counted by exactly one of the two
filters x ≥ v and x ≤ v. -/
lemma filter_ge_add_filter_le_of_not_mem (t : List ℚ) (v : ℚ) (hv : v ∉ t) :
    ((t.filter fun x => v ≤ x).length + (t.filter fun x => x ≤ v).length) = t.length := by
  induction t with
  | nil => simp
  | cons a t ih =>
    have ha : a ≠ v := by
      rintro rfl
      exact hv (List.mem_cons_self a t)
    have hvt : v ∉ t := fun hm => hv (List.mem_cons_of_mem _ hm)
    rcases lt_trichotomy a v with hlt | heq | hgt
    · rw [List.filter_cons_of_neg (by simpa using not_le.mpr hlt),
        List.filter_cons_of_pos (by simpa using hlt.le)]
      have := ih hvt
      simp only [List.length_cons, List.length_cons]
      omega
    · exact absurd heq ha
    · rw [List.filter_cons_of_pos (by simpa using hgt.le),
        List.filter_cons_of_neg (by simpa using not_le.mpr hgt)]
      have := ih hvt
      simp only [List.length_cons, List.length_cons]
      omega

/-- In a duplicate-free list containing v, the inclusive ranks from above and
from below overcount the length by exactly the self-tie. -/
lemma filter_ge_add_filter_le_of_mem (l : List ℚ) (v : ℚ) (hmem : v ∈ l) (hnd : l.Nodup) :
    ((l.filter fun x => v ≤ x).length + (l.filter fun x => x ≤ v).length) = l.length + 1 := by
  induction l with
  | nil => cases hmem
  | cons a t ih =>
    rcases List.mem_cons.mp hmem with rfl | hm
    · have hvt : v ∉ t := (List.nodup_cons.mp hnd).1
      rw [List.filter_cons_of_pos (by simp), List.filter_cons_of_pos (by simp)]
      have := filter_ge_add_filter_le_of_not_mem t v hvt
      simp only [List.length_cons]
      omega
    · have hnd2 : t.Nodup := (List.nodup_cons.mp hnd).2
      have hav : a ≠ v := by
        rintro rfl
        exact (List.nodup_cons.mp hnd).1 hm
      rcases lt_trichotomy a v with hlt | heq | hgt
      · rw [List.filter_cons_of_neg (by simpa using not_le.mpr hlt),
          List.filter_cons_of_pos (by simpa using hlt.le)]
        have := ih hm hnd2
        simp only [List.length_cons]
        omega
      · exact absurd heq hav
      · rw [List.filter_cons_of_pos (by simpa using hgt.le),
          List.filter_cons_of_neg (by simpa using not_le.mpr hgt)]
        have := ih hm hnd2
        simp only [List.length_cons]
        omega

/-- rankLE with direction -1 counts the values ≥ v. -/
lemma rankLE_neg_one (series : Series) (window i : ℕ) (v : ℚ) :
    rankLE series window i (-1) v =
      ((windowVals series window i).filter fun x => v ≤ x).length := by
  unfold rankLE
  congr 1
  apply List.filter_congr
  intro x _
  simp only [Int.cast_neg, Int.cast_one, decide_eq_decide]
  constructor
  · intro hx
    nlinarith
  · intro hx
    nlinarith

/-- rankLE with direction +1 counts the values ≤ v. -/
lemma rankLE_one (series : Series) (window i : ℕ) (v : ℚ) :
    rankLE series window i 1 v =
      ((windowVals series window i).filter fun x => x ≤ v).length := by
  unfold rankLE
  congr 1
  apply List.filter_congr
  intro x _
  simp

/-- Claim C5, counterexample input: on the singleton series [5] with window 1
(both outputs defined, no ties in the window) the two directions both give
100, but the claimed complement would force 100 = 100 - 100. -/
theorem C5_counterexample :
    (RollingScore [some 5] 1 1).getD 0 none = some 100 ∧
    (RollingScore [some 5] 1 (-1)).getD 0 none = some 100 ∧
    (windowVals [some 5] 1 0).Nodup ∧
    ((100 : ℚ) ≠ 100 - 100) := by
  have h1 : validCount [some 5] 1 0 = 1 := by
    simp [validCount, windowVals, windowPositions, List.range_succ]
  have hv5 : ([some 5] : Series).getD 0 none = some 5 := by simp [List.getD]
  refine ⟨?_, ?_, ?_, by norm_num⟩
  · have h2 : rankLE [some 5] 1 0 1 5 = 1 := by
      simp [rankLE, windowVals, windowPositions, List.range_succ]
    rw [rollingScore_getD_concrete (by simp) hv5 (by omega) (by omega), h1, h2]
    norm_num
  · have h2 : rankLE [some 5] 1 0 (-1) 5 = 1 := by
      simp [rankLE, windowVals, windowPositions, List.range_succ]
    rw [rollingScore_getD_concrete (by simp) hv5 (by omega) (by omega), h1, h2]
    norm_num
  · simp [windowVals, windowPositions, List.range_succ]

/-- Claim C5 (amended): with no ties among the valid window values, the two
directions are complementary up to the inclusive self-tie, which is counted
on both sides: Normalize(s,w,-1)[i] = 100 + 100/m - Normalize(s,w,+1)[i],
with m the number of valid values in the window (the claimed 100 - p is off
by exactly 100/m). -/
theorem C5_direction_complement (series : Series) (window : ℕ) (i : ℕ) (v p : ℚ)
    (hv : series.getD i none = some v)
    (hnd : (windowVals series window i).Nodup)
    (hp : (RollingScore series window 1).getD i none = some p) :
    (RollingScore series window (-1)).getD i none =
      some (100 + 100 / (validCount series window i : ℚ) - p) := by
  have hlen : i < series.length := by
    by_contra hl
    rw [rollingScore_getD_of_ge (by omega)] at hp
    exact Option.noConfusion hp
  rw [rollingScore_getD hlen, hv] at hp
  simp only at hp
  by_cases hs : i + 1 < window
  · rw [if_pos hs] at hp
    exact Option.noConfusion hp
  · rw [if_neg hs] at hp
    by_cases hm : validCount series window i = 0
    · rw [if_pos hm] at hp
      exact Option.noConfusion hp
    · rw [if_neg hm] at hp
      have hpeq : p = (rankLE series window i 1 v : ℚ) /
          (validCount series window i : ℚ) * 100 := (Option.some.injEq _ _).mp hp.symm
      have hw : 1 ≤ window := validCount_pos_w hm
      have hmemv : v ∈ windowVals series window i := self_mem_windowVals hv hw
      have hcnt := filter_ge_add_filter_le_of_mem (windowVals series window i) v hmemv hnd
      rw [rollingScore_getD hlen, hv]
      simp only [if_neg hs, if_neg hm]
      congr 1
      rw [rankLE_neg_one]
      rw [rankLE_one] at hpeq
      have hle1 : ((windowVals series window i).filter fun x => v ≤ x).length =
          validCount series window i + 1 -
            ((windowVals series window i).filter fun x => x ≤ v).length := by
        unfold validCount
        omega
      have hle2 : ((windowVals series window i).filter fun x => x ≤ v).length ≤
          validCount series window i := by
        unfold validCount
        exact List.length_filter_le _ _
      rw [hle1]
      have hcast : ((validCount series window i + 1 -
          ((windowVals series window i).filter fun x => x ≤ v).length : ℕ) : ℚ) =
          (validCount series window i : ℚ) + 1 -
            (((windowVals series window i).filter fun x => x ≤ v).length : ℚ) := by
        have : ((windowVals series window i).filter fun x => x ≤ v).length ≤
            validCount series window i + 1 := by omega
        push_cast [Nat.cast_sub this]
        ring
      rw [hcast, hpeq]
      have hmQ : ((validCount series window i : ℚ)) ≠ 0 := by
        exact_mod_cast hm
      field_simp
      ring

/-- Witness for C5: on series [1, 2] with window 2, direction +1 gives 100 at
index 1 and direction -1 gives 100 + 100/2 - 100 = 50. -/
theorem C5_witness :
    (RollingScore [some 1, some 2] 2 (-1)).getD 1 none =
      some (100 + 100 / (validCount [some 1, some 2] 2 1 : ℚ) - 100) := by
  have hp : (RollingScore [some 1, some 2] 2 1).getD 1 none = some 100 := by
    have h1 : validCount [some 1, some 2] 2 1 = 2 := by
      simp [validCount, windowVals, windowPositions, List.range_succ]
    have h2 : rankLE [some 1, some 2] 2 1 1 2 = 2 := by
      simp [rankLE, windowVals, windowPositions, List.range_succ]
    have hv2 : ([some 1, some 2] : Series).getD 1 none = some 2 := by simp [List.getD]
    rw [rollingScore_getD_concrete (by simp) hv2 (by omega) (by omega), h1, h2]
    norm_num
  exact C5_direction_complement [some 1, some 2] 2 1 2 100 (by simp [List.getD])
    (by simp [windowVals, windowPositions, List.range_succ]) hp

/-! ## Claim C1 -/

lemma agg_foldl (l : List (ℚ × Option ℚ)) (a b : ℚ) :
    l.foldl (fun acc p => aggAdd acc p.1 p.2) (a, b) =
      (a + definedWeightedSum l, b + definedWeightSum l) := by
  induction l generalizing a b with
  | nil => simp [definedWeightedSum, definedWeightSum]
  | cons p t ih =>
    rcases p with ⟨w, val⟩
    cases val with
    | none =>
      rw [List.foldl_cons]
      have hstep : aggAdd (a, b) ((w, none) : ℚ × Option ℚ).1
          ((w, none) : ℚ × Option ℚ).2 = (a, b) := rfl
      rw [hstep, ih]
      simp [definedWeightedSum, definedWeightSum, List.filterMap_cons, List.filter_cons]
    | some v =>
      rw [List.foldl_cons]
      have hstep : aggAdd (a, b) ((w, some v) : ℚ × Option ℚ).1
          ((w, some v) : ℚ × Option ℚ).2 = (a + v * w, b + w) := rfl
      rw [hstep, ih]
      have hdws : definedWeightedSum ((w, some v) :: t) = v * w + definedWeightedSum t := by
        simp [definedWeightedSum, List.filterMap_cons]
      have hdw : definedWeightSum ((w, some v) :: t) = w + definedWeightSum t := by
        simp [definedWeightSum, List.filter_cons]
      rw [hdws, hdw, Prod.mk.injEq]
      constructor <;> ring

lemma definedWeightSum_nonneg (l : List (ℚ × Option ℚ)) (h : ∀ p ∈ l, 0 ≤ p.1) :
    0 ≤ definedWeightSum l := by
  unfold definedWeightSum
  apply List.sum_nonneg
  intro x hx
  simp only [List.mem_map] at hx
  obtain ⟨p, hp, rfl⟩ := hx
  exact h p (List.mem_of_mem_filter hp)

lemma definedWeightSum_pos (l : List (ℚ × Option ℚ)) (hw : ∀ p ∈ l, 0 < p.1)
    (hex : ∃ p ∈ l, p.2 ≠ none) : 0 < definedWeightSum l := by
  obtain ⟨p, hp, hps⟩ := hex
  have hmem : p.1 ∈ (l.filter fun p => p.2.isSome).map Prod.fst := by
    apply List.mem_map.mpr
    refine ⟨p, List.mem_filter.mpr ⟨hp, ?_⟩, rfl⟩
    simpa [Option.isSome_iff_ne_none] using hps
  have hnn : ∀ x ∈ (l.filter fun p => p.2.isSome).map Prod.fst, 0 ≤ x := by
    intro x hx
    simp only [List.mem_map] at hx
    obtain ⟨q, hq, rfl⟩ := hx
    exact (hw q (List.mem_of_mem_filter hq)).le
  exact lt_of_lt_of_le (hw p hp) (List.single_le_sum hnn _ hmem)

lemma definedWeightSum_eq_zero (l : List (ℚ × Option ℚ)) (h : ∀ p ∈ l, p.2 = none) :
    definedWeightSum l = 0 := by
  unfold definedWeightSum
  have hnil : l.filter (fun p => p.2.isSome) = [] := by
    apply List.filter_eq_nil_iff.mpr
    intro p hp
    simp [h p hp]
  rw [hnil]
  simp

lemma Weights_trend : Weights "trend" = 15 / 100 := rfl
lemma Weights_momentum : Weights "momentum" = 15 / 100 := rfl
lemma Weights_rsi : Weights "rsi" = 10 / 100 := rfl
lemma Weights_macd : Weights "macd" = 10 / 100 := rfl
lemma Weights_drawdown : Weights "drawdown" = 10 / 100 := rfl
lemma Weights_volatility : Weights "volatility" = 10 / 100 := rfl
lemma Weights_mfi : Weights "mfi" = 15 / 100 := rfl
lemma Weights_bb : Weights "bb_pct_b" = 15 / 100 := rfl

lemma subPairs_weights_pos (s : SubScores) : ∀ p ∈ subPairs s, 0 < p.1 := by
  intro p hp
  simp only [subPairs, List.mem_cons, List.not_mem_nil, or_false] at hp
  rcases hp with rfl | rfl | rfl | rfl | rfl | rfl | rfl | rfl <;>
    simp only [Weights_trend, Weights_momentum, Weights_rsi, Weights_macd,
      Weights_drawdown, Weights_volatility, Weights_mfi, Weights_bb] <;> norm_num

lemma exists_defined_subPairs_iff (s : SubScores) :
    (∃ p ∈ subPairs s, p.2 ≠ none) ↔ ¬ AllNone s := by
  simp only [subPairs, AllNone, List.mem_cons, List.not_mem_nil, or_false]
  constructor
  · rintro ⟨p, hp, hps⟩ hall
    obtain ⟨h1, h2, h3, h4, h5, h6, h7, h8⟩ := hall
    rcases hp with rfl | rfl | rfl | rfl | rfl | rfl | rfl | rfl <;> simp_all
  · intro hall
    by_contra hno
    push_neg at hno
    exact hall ⟨hno _ (Or.inl rfl), hno _ (Or.inr (Or.inl rfl)),
      hno _ (Or.inr (Or.inr (Or.inl rfl))),
      hno _ (Or.inr (Or.inr (Or.inr (Or.inl rfl)))),
      hno _ (Or.inr (Or.inr (Or.inr (Or.inr (Or.inl rfl))))),
      hno _ (Or.inr (Or.inr (Or.inr (Or.inr (Or.inr (Or.inl rfl)))))),
      hno _ (Or.inr (Or.inr (Or.inr (Or.inr (Or.inr (Or.inr (Or.inl rfl))))))),
      hno _ (Or.inr (Or.inr (Or.inr (Or.inr (Or.inr (Or.inr (Or.inr rfl)))))))⟩

lemma allNone_forall (s : SubScores) (hall : AllNone s) : ∀ p ∈ subPairs s, p.2 = none := by
  intro p hp
  simp only [subPairs, List.mem_cons, List.not_mem_nil, or_false] at hp
  obtain ⟨h1, h2, h3, h4, h5, h6, h7, h8⟩ := hall
  rcases hp with rfl | rfl | rfl | rfl | rfl | rfl | rfl | rfl <;> assumption

lemma aggregate_eq_none_iff (s : SubScores) : aggregate s = none ↔ AllNone s := by
  unfold aggregate
  rw [agg_foldl]
  simp only [zero_add]
  by_cases hall : AllNone s
  · rw [definedWeightSum_eq_zero _ (allNone_forall s hall)]
    simp [hall]
  · have hpos : 0 < definedWeightSum (subPairs s) :=
      definedWeightSum_pos _ (subPairs_weights_pos s)
        ((exists_defined_subPairs_iff s).mpr hall)
    simp [hpos, hall]

lemma aggregate_eq_some (s : SubScores) (hall : ¬ AllNone s) :
    aggregate s = some (definedWeightedSum (subPairs s) / definedWeightSum (subPairs s)) := by
  unfold aggregate
  rw [agg_foldl]
  simp only [zero_add]
  have hpos : 0 < definedWeightSum (subPairs s) :=
    definedWeightSum_pos _ (subPairs_weights_pos s)
      ((exists_defined_subPairs_iff s).mpr hall)
  rw [if_pos hpos]

lemma compute_getD (sq : ℚ → ℚ) (prices : List Price) (cfg : Config) (lang : String)
    {i : ℕ} (h : i < prices.length) :
    (Compute sq prices cfg lang).getD i default = scoreRecordAt sq prices cfg lang i := by
  unfold Compute
  rw [if_neg (by omega), getD_map_range _ _ h]

/-- Claim C1: the aggregate of a bar is the defined-weighted mean of exactly
the defined sub-scores, and it is undefined exactly when no sub-score of the
bar is defined; in particular eight defined sub-scores of 60 aggregate to 60
and a single defined sub-score of 80 aggregates to 80. -/
theorem C1_aggregate_weighted_mean :
    (∀ (sq : ℚ → ℚ) (prices : List Price) (cfg : Config) (lang : String) (i : ℕ),
      i < prices.length →
      (((Compute sq prices cfg lang).getD i default).score = none ↔
        AllNone ((Compute sq prices cfg lang).getD i default).values) ∧
      (¬ AllNone ((Compute sq prices cfg lang).getD i default).values →
        ((Compute sq prices cfg lang).getD i default).score =
          some (definedWeightedSum (subPairs ((Compute sq prices cfg lang).getD i default).values) /
            definedWeightSum (subPairs ((Compute sq prices cfg lang).getD i default).values)))) ∧
    aggregate ⟨some 60, some 60, some 60, some 60, some 60, some 60, some 60, some 60⟩ =
      some 60 ∧
    aggregate ⟨none, none, none, none, none, none, some 80, none⟩ = some 80 := by
  refine ⟨?_, ?_, ?_⟩
  · intro sq prices cfg lang i h
    rw [compute_getD sq prices cfg lang h]
    have hsc : (scoreRecordAt sq prices cfg lang i).score =
        aggregate (subScoresAt sq prices cfg i) := rfl
    have hvl : (scoreRecordAt sq prices cfg lang i).values = subScoresAt sq prices cfg i := rfl
    rw [hsc, hvl]
    exact ⟨aggregate_eq_none_iff _, aggregate_eq_some _⟩
  · rw [aggregate_eq_some _ (by simp [AllNone])]
    have : definedWeightedSum (subPairs ⟨some 60, some 60, some 60, some 60, some 60,
        some 60, some 60, some 60⟩) = 60 ∧
        definedWeightSum (subPairs ⟨some 60, some 60, some 60, some 60, some 60,
        some 60, some 60, some 60⟩) = 1 := by
      constructor <;> norm_num [definedWeightedSum, definedWeightSum, subPairs, List.filterMap_cons, List.filter_cons,
        Weights_trend, Weights_momentum, Weights_rsi, Weights_macd, Weights_drawdown,
        Weights_volatility, Weights_mfi, Weights_bb]
    rw [this.1, this.2]
    norm_num
  · rw [aggregate_eq_some _ (by simp [AllNone])]
    have : definedWeightedSum (subPairs ⟨none, none, none, none, none, none,
        some 80, none⟩) = 80 * (15 / 100) ∧
        definedWeightSum (subPairs ⟨none, none, none, none, none, none,
        some 80, none⟩) = 15 / 100 := by
      constructor <;> norm_num [definedWeightedSum, definedWeightSum, subPairs, List.filterMap_cons, List.filter_cons,
        Weights_trend, Weights_momentum, Weights_rsi, Weights_macd, Weights_drawdown,
        Weights_volatility, Weights_mfi, Weights_bb]
    rw [this.1, this.2]
    norm_num

/-- Witness for C1: on a single synthetic bar all sub-scores are undefined
(warm-up), so the iff of the main clause makes the aggregate undefined. -/
theorem C1_witness :
    (((Compute (fun x => x) [⟨0, 1, 1, 1, 1, 1⟩] DefaultConfig "en").getD 0 default).score =
        none ↔
      AllNone ((Compute (fun x => x) [⟨0, 1, 1, 1, 1, 1⟩] DefaultConfig "en").getD 0
        default).values) ∧
    aggregate ⟨some 60, some 60, some 60, some 60, some 60, some 60, some 60, some 60⟩ =
      some 60 := by
  exact ⟨(C1_aggregate_weighted_mean.1 (fun x => x) [⟨0, 1, 1, 1, 1, 1⟩] DefaultConfig "en" 0
    (by simp)).1, C1_aggregate_weighted_mean.2.1⟩

/-! ## Claim C4 -/

lemma trendRawSeries_getD {closes : List ℚ} (maFast maSlow : Series) {i : ℕ}
    (h : i < closes.length) :
    (trendRawSeries closes maFast maSlow).getD i 0 =
      (5 / 10) * trendTerm (closes.getD i 0) (maFast.getD i none) +
      (5 / 10) * trendTerm (closes.getD i 0) (maSlow.getD i none) := by
  unfold trendRawSeries
  rw [getD_map_range _ _ h]

lemma compute_raw_trend (sq : ℚ → ℚ) (prices : List Price) (cfg : Config) (lang : String)
    {i : ℕ} (h : i < prices.length) :
    ((Compute sq prices cfg lang).getD i default).raw.trend =
      some ((trendRawOf prices cfg).getD i 0) := by
  rw [compute_getD sq prices cfg lang h]
  rfl

/-- Claim C4, counterexample input: on a single bar with close 1 and the
default config, both moving averages are undefined at index 0 (warm-up), yet
the trend raw value is the defined number 0, not undefined: the Go guard
maFast[i] > 0 is false for NaN, so the term is set to 0. -/
theorem C4_counterexample :
    ((Compute (fun x => x) [⟨0, 1, 1, 1, 1, 1⟩] DefaultConfig "en").getD 0
      default).raw.trend = some 0 ∧
    (SMA (closesOf [⟨0, 1, 1, 1, 1, 1⟩]) DefaultConfig.MAFast).getD 0 none = none ∧
    (SMA (closesOf [⟨0, 1, 1, 1, 1, 1⟩]) DefaultConfig.MASlow).getD 0 none = none := by
  have hsf : SMA (closesOf [⟨0, 1, 1, 1, 1, 1⟩]) DefaultConfig.MAFast = [none] := by
    norm_num [SMA, closesOf, DefaultConfig]
  have hss : SMA (closesOf [⟨0, 1, 1, 1, 1, 1⟩]) DefaultConfig.MASlow = [none] := by
    norm_num [SMA, closesOf, DefaultConfig]
  refine ⟨?_, by rw [hsf]; rfl, by rw [hss]; rfl⟩
  rw [compute_raw_trend _ _ _ _ (by simp)]
  have ht : (trendRawOf [⟨0, 1, 1, 1, 1, 1⟩] DefaultConfig).getD 0 0 = 0 := by
    unfold trendRawOf
    rw [trendRawSeries_getD _ _ (by simp [closesOf]), hsf, hss]
    norm_num [trendTerm, List.getD]
  rw [ht]

/-- Claim C4 (amended): the trend raw indicator is always defined, equal to
0.5*tf + 0.5*ts where, independently for each of the two moving averages,
the term is close/MA - 1 when that MA is defined and positive, and 0 when
that MA is defined but nonpositive or is undefined — so every mixed case
(one MA defined, one undefined; an MA ≤ 0) zeroes only its own term instead
of making the result undefined. -/
theorem C4_trend_term_zero (sq : ℚ → ℚ) (prices : List Price) (cfg : Config)
    (lang : String) (i : ℕ) (h : i < prices.length) :
    ∃ tf ts : ℚ,
      ((Compute sq prices cfg lang).getD i default).raw.trend =
        some ((5 / 10) * tf + (5 / 10) * ts) ∧
      (∀ mf : ℚ, (SMA (closesOf prices) cfg.MAFast).getD i none = some mf →
        0 < mf → tf = (closesOf prices).getD i 0 / mf - 1) ∧
      (∀ mf : ℚ, (SMA (closesOf prices) cfg.MAFast).getD i none = some mf →
        mf ≤ 0 → tf = 0) ∧
      ((SMA (closesOf prices) cfg.MAFast).getD i none = none → tf = 0) ∧
      (∀ ms : ℚ, (SMA (closesOf prices) cfg.MASlow).getD i none = some ms →
        0 < ms → ts = (closesOf prices).getD i 0 / ms - 1) ∧
      (∀ ms : ℚ, (SMA (closesOf prices) cfg.MASlow).getD i none = some ms →
        ms ≤ 0 → ts = 0) ∧
      ((SMA (closesOf prices) cfg.MASlow).getD i none = none → ts = 0) := by
  have hc : i < (closesOf prices).length := by simpa [closesOf] using h
  refine ⟨trendTerm ((closesOf prices).getD i 0)
      ((SMA (closesOf prices) cfg.MAFast).getD i none),
    trendTerm ((closesOf prices).getD i 0)
      ((SMA (closesOf prices) cfg.MASlow).getD i none),
    ?_, ?_, ?_, ?_, ?_, ?_, ?_⟩
  · rw [compute_raw_trend sq prices cfg lang h]
    unfold trendRawOf
    rw [trendRawSeries_getD _ _ hc]
  · intro mf hmf hpos
    rw [hmf]
    simp only [trendTerm]
    rw [if_pos hpos]
  · intro mf hmf hle
    rw [hmf]
    simp only [trendTerm]
    rw [if_neg (not_lt.mpr hle)]
  · intro hmf
    rw [hmf]
    rfl
  · intro ms hms hpos
    rw [hms]
    simp only [trendTerm]
    rw [if_pos hpos]
  · intro ms hms hle
    rw [hms]
    simp only [trendTerm]
    rw [if_neg (not_lt.mpr hle)]
  · intro hms
    rw [hms]
    rfl

/-- Witness for C4: one bar with close -1, fast window 1 and slow window 2,
so the fast MA is defined but nonpositive (-1, zeroing its term) while the
slow MA is undefined (warm-up, zeroing its term): the mixed case of the
amended claim at a concrete input. -/
theorem C4_witness :
    ∃ tf ts : ℚ,
      ((Compute (fun x => x) [⟨0, 1, 1, 1, -1, 1⟩] ⟨252, 1, 2, 20, 20, 14, 252⟩
          "en").getD 0 default).raw.trend = some ((5 / 10) * tf + (5 / 10) * ts) ∧
      (∀ mf : ℚ, (SMA (closesOf [⟨0, 1, 1, 1, -1, 1⟩]) 1).getD 0 none = some mf →
        0 < mf → tf = (closesOf [⟨0, 1, 1, 1, -1, 1⟩]).getD 0 0 / mf - 1) ∧
      (∀ mf : ℚ, (SMA (closesOf [⟨0, 1, 1, 1, -1, 1⟩]) 1).getD 0 none = some mf →
        mf ≤ 0 → tf = 0) ∧
      ((SMA (closesOf [⟨0, 1, 1, 1, -1, 1⟩]) 1).getD 0 none = none → tf = 0) ∧
      (∀ ms : ℚ, (SMA (closesOf [⟨0, 1, 1, 1, -1, 1⟩]) 2).getD 0 none = some ms →
        0 < ms → ts = (closesOf [⟨0, 1, 1, 1, -1, 1⟩]).getD 0 0 / ms - 1) ∧
      (∀ ms : ℚ, (SMA (closesOf [⟨0, 1, 1, 1, -1, 1⟩]) 2).getD 0 none = some ms →
        ms ≤ 0 → ts = 0) ∧
      ((SMA (closesOf [⟨0, 1, 1, 1, -1, 1⟩]) 2).getD 0 none = none → ts = 0) := by
  exact C4_trend_term_zero (fun x => x) [⟨0, 1, 1, 1, -1, 1⟩]
    ⟨252, 1, 2, 20, 20, 14, 252⟩ "en" 0 (by simp)

/-! ## Claim C7 -/

lemma le_foldl_max (closes : List ℚ) (l : List ℕ) (a : ℚ) :
    a ≤ l.foldl (fun acc j => if acc < closes.getD j 0 then closes.getD j 0 else acc) a := by
  induction l generalizing a with
  | nil => simp
  | cons b t ih =>
    rw [List.foldl_cons]
    refine le_trans ?_ (ih _)
    by_cases hb : a < closes.getD b 0
    · rw [if_pos hb]
      exact hb.le
    · rw [if_neg hb]

lemma mem_le_foldl_max (closes : List ℚ) {l : List ℕ} {j : ℕ} (hj : j ∈ l) (a : ℚ) :
    closes.getD j 0 ≤
      l.foldl (fun acc j => if acc < closes.getD j 0 then closes.getD j 0 else acc) a := by
  induction l generalizing a with
  | nil => cases hj
  | cons b t ih =>
    rw [List.foldl_cons]
    rcases List.mem_cons.mp hj with rfl | hm
    · refine le_trans ?_ (le_foldl_max closes t _)
      by_cases hb : a < closes.getD j 0
      · rw [if_pos hb]
      · rw [if_neg hb]
        exact not_lt.mp hb
    · exact ih hm _

lemma runMax_zero_window (closes : List ℚ) (i : ℕ) : runMax closes 0 i = 0 := by
  unfold runMax
  rw [windowPositions_zero]
  rfl

lemma runMax_pos_w {closes : List ℚ} {w i : ℕ} (h : 0 < runMax closes w i) : 1 ≤ w := by
  by_contra hw
  have hw0 : w = 0 := by omega
  subst hw0
  rw [runMax_zero_window] at h
  exact lt_irrefl 0 h

lemma ddRawSeries_getD {closes : List ℚ} (w : ℕ) {i : ℕ} (h : i < closes.length) :
    (ddRawSeries closes w).getD i 0 =
      if 0 < runMax closes w i then closes.getD i 0 / runMax closes w i - 1 else 0 := by
  unfold ddRawSeries
  rw [getD_map_range _ _ h]

/-- Claim C7: for non-negative closes the drawdown raw series is everywhere
defined (one plain number per bar, also in Compute's output record), equals
close/runningMax - 1 whenever the running maximum is positive, and is never
positive. -/
theorem C7_drawdown_nonpositive :
    (∀ (closes : List ℚ) (w i : ℕ), (∀ c ∈ closes, 0 ≤ c) → i < closes.length →
      (ddRawSeries closes w).length = closes.length ∧
      (0 < runMax closes w i →
        (ddRawSeries closes w).getD i 0 = closes.getD i 0 / runMax closes w i - 1) ∧
      (ddRawSeries closes w).getD i 0 ≤ 0) ∧
    (∀ (sq : ℚ → ℚ) (prices : List Price) (cfg : Config) (lang : String) (i : ℕ),
      i < prices.length →
      ((Compute sq prices cfg lang).getD i default).raw.drawdown =
        some ((ddRawOf prices cfg).getD i 0)) := by
  constructor
  · intro closes w i _ h
    refine ⟨by simp [ddRawSeries], ?_, ?_⟩
    · intro hm
      rw [ddRawSeries_getD w h, if_pos hm]
    · rw [ddRawSeries_getD w h]
      by_cases hm : 0 < runMax closes w i
      · rw [if_pos hm]
        have hw : 1 ≤ w := runMax_pos_w hm
        have hle : closes.getD i 0 ≤ runMax closes w i := by
          unfold runMax
          exact mem_le_foldl_max closes (mem_windowPositions_self i hw) 0
        have hdiv : closes.getD i 0 / runMax closes w i ≤ 1 := (div_le_one hm).mpr hle
        linarith
      · rw [if_neg hm]
  · intro sq prices cfg lang i h
    rw [compute_getD sq prices cfg lang h]
    rfl

/-- Witness for C7: the drawdown value of the two-bar series [2, 1] with
window 2 at index 1 is 1/2 - 1 = -1/2 ≤ 0. -/
theorem C7_witness :
    (ddRawSeries [2, 1] 2).length = 2 ∧
    (0 < runMax [2, 1] 2 1 →
      (ddRawSeries [2, 1] 2).getD 1 0 = ([2, 1] : List ℚ).getD 1 0 / runMax [2, 1] 2 1 - 1) ∧
    (ddRawSeries [2, 1] 2).getD 1 0 ≤ 0 := by
  exact C7_drawdown_nonpositive.1 [2, 1] 2 1 (by norm_num) (by norm_num)

/-! ## Claim C8 -/

lemma emaFrom_length (k : ℚ) (p : ℚ) (l : List ℚ) : (emaFrom k p l).length = l.length := by
  induction l generalizing p with
  | nil => rfl
  | cons v t ih =>
    unfold emaFrom
    simp [ih]

lemma EMA_length (values : List ℚ) (span : ℕ) : (EMA values span).length = values.length := by
  cases values with
  | nil => rfl
  | cons v t =>
    unfold EMA
    simp [emaFrom_length]

lemma MACD_length (values : List ℚ) : (MACD values).length = values.length := by
  unfold MACD
  simp [List.length_zipWith, EMA_length]

/-- Claim C8: every indicator preserves the input length (for all input
lengths, including 0 and 1), and Compute yields exactly one record per bar —
the empty input giving the empty output, not an error. -/
theorem C8_length_alignment :
    (∀ (values : List ℚ) (w : ℕ), 1 ≤ w → (SMA values w).length = values.length) ∧
    (∀ (values : List ℚ) (span : ℕ), (EMA values span).length = values.length) ∧
    (∀ (values : List ℚ) (w : ℕ), (RSI values w).length = values.length) ∧
    (∀ values : List ℚ, (MACD values).length = values.length) ∧
    (∀ (high low close volume : List ℚ) (w : ℕ), high.length = close.length →
      low.length = close.length → volume.length = close.length →
      (MFI high low close volume w).length = close.length) ∧
    (∀ (sq : ℚ → ℚ) (close : List ℚ) (w : ℕ) (k : ℚ), 1 ≤ w →
      (BollingerPercentB sq close w k).length = close.length) ∧
    (∀ (sq : ℚ → ℚ) (values : List ℚ) (w : ℕ),
      (RealizedVol sq values w).length = values.length) ∧
    (∀ (values : List ℚ) (w : ℕ), (Momentum values w).length = values.length) ∧
    (∀ (values : Series) (w : ℕ) (d : ℤ),
      (RollingScore values w d).length = values.length) ∧
    (∀ (sq : ℚ → ℚ) (prices : List Price) (cfg : Config) (lang : String),
      (Compute sq prices cfg lang).length = prices.length) ∧
    (∀ (sq : ℚ → ℚ) (cfg : Config) (lang : String), Compute sq [] cfg lang = []) := by
  refine ⟨?_, EMA_length, ?_, MACD_length, ?_, ?_, ?_, ?_, ?_, ?_, ?_⟩
  · intro values w _
    unfold SMA
    split <;> simp
  · intro values w
    unfold RSI
    split <;> simp
  · intro high low close volume w _ _ _
    unfold MFI
    split <;> simp
  · intro sq close w k _
    unfold BollingerPercentB
    split <;> simp
  · intro sq values w
    unfold RealizedVol
    simp
  · intro values w
    unfold Momentum
    simp
  · intro values w d
    unfold RollingScore
    simp
  · intro sq prices cfg lang
    unfold Compute
    by_cases h : prices.length = 0
    · rw [if_pos h, h]
      rfl
    · rw [if_neg h]
      simp
  · intro sq cfg lang
    rfl

/-- Witness for C8: concrete length instances, including the empty input. -/
theorem C8_witness :
    (SMA [1, 2] 2).length = 2 ∧
    (MFI [1] [1] [1] [1] 14).length = 1 ∧
    (BollingerPercentB (fun x => x) [1] 20 2).length = 1 ∧
    Compute (fun x => x) [] DefaultConfig "en" = [] := by
  exact ⟨C8_length_alignment.1 [1, 2] 2 (by norm_num),
    C8_length_alignment.2.2.2.2.1 [1] [1] [1] [1] 14 rfl rfl rfl,
    C8_length_alignment.2.2.2.2.2.1 (fun x => x) [1] 20 2 (by norm_num),
    C8_length_alignment.2.2.2.2.2.2.2.2.2.2 (fun x => x) DefaultConfig "en"⟩

/-! ## Claim C3 -/

/-- Claim C3: the code contradicts the Wilder reference (and its own
"Initial value" comment).  On closes [1,2,1] with window 1 the reference
gives RSI[1] = 100 (initial avgGain 1, avgLoss 0), but the Go code computes
out[window] after the smoothing loop, from the averages smoothed through the
series end, yielding 0.  On closes [1,2,3] the in-loop rs = 1e9 stand-in
makes RSI[2] equal 100 - 100/(1+1e9), not the reference's exact 100. -/
theorem C3_rsi_divergence :
    RSI [1, 2, 1] 1 = [none, some 0, some 0] ∧
    wilderRSI [1, 2, 1] 1 = [none, some 100, some 0] ∧
    RSI [1, 2, 3] 1 = [none, some 100, some (100 - 100 / (1 + 1000000000))] ∧
    wilderRSI [1, 2, 3] 1 = [none, some 100, some 100] ∧
    (100 - 100 / (1 + 1000000000) : ℚ) ≠ 100 := by
  refine ⟨?_, ?_, ?_, ?_, by norm_num⟩ <;>
    norm_num [RSI, wilderRSI, rsiAvgGain, rsiAvgLoss, rsiAvgAux, rsiInitAvg,
      rsiGain, rsiLoss, List.range_succ, List.getD]

/-! ## Claim C6 -/

lemma LabelFromScore_en (s : ℚ) :
    LabelFromScore (some s) "en" =
      (if s < 25 then "Extreme Fear" else if s < 45 then "Fear"
       else if s ≤ 55 then "Neutral" else if s ≤ 75 then "Greed"
       else "Extreme Greed") := rfl

lemma LabelFromScore_other (s : ℚ) (lang : String) (hl : lang ≠ "en") :
    LabelFromScore (some s) lang =
      (if s < 25 then "极度恐惧" else if s < 45 then "恐惧"
       else if s ≤ 55 then "中性" else if s ≤ 75 then "贪婪"
       else "极度贪婪") := by
  show (if lang = "en" then _ else _) = _
  rw [if_neg hl]

/-- Claim C6: the label classifier is the stated pure threshold function in
both language tables, an undefined score maps to the dedicated "-" marker
for every language, and a defined score never maps to the marker. -/
theorem C6_label_thresholds (s : ℚ) :
    ((s < 25 → LabelFromScore (some s) "en" = "Extreme Fear" ∧
        LabelFromScore (some s) "zh" = "极度恐惧") ∧
      (25 ≤ s → s < 45 → LabelFromScore (some s) "en" = "Fear" ∧
        LabelFromScore (some s) "zh" = "恐惧") ∧
      (45 ≤ s → s ≤ 55 → LabelFromScore (some s) "en" = "Neutral" ∧
        LabelFromScore (some s) "zh" = "中性") ∧
      (55 < s → s ≤ 75 → LabelFromScore (some s) "en" = "Greed" ∧
        LabelFromScore (some s) "zh" = "贪婪") ∧
      (75 < s → LabelFromScore (some s) "en" = "Extreme Greed" ∧
        LabelFromScore (some s) "zh" = "极度贪婪")) ∧
    (∀ lang : String, LabelFromScore none lang = "-") ∧
    (∀ lang : String, LabelFromScore (some s) lang ≠ "-") := by
  refine ⟨⟨?_, ?_, ?_, ?_, ?_⟩, fun lang => rfl, ?_⟩
  · intro h1
    rw [LabelFromScore_en, LabelFromScore_other s "zh" (by decide)]
    constructor <;> split_ifs <;> rfl
  · intro h1 h2
    rw [LabelFromScore_en, LabelFromScore_other s "zh" (by decide)]
    constructor <;> split_ifs <;> first | rfl | (exfalso; linarith)
  · intro h1 h2
    rw [LabelFromScore_en, LabelFromScore_other s "zh" (by decide)]
    constructor <;> split_ifs <;> first | rfl | (exfalso; linarith)
  · intro h1 h2
    rw [LabelFromScore_en, LabelFromScore_other s "zh" (by decide)]
    constructor <;> split_ifs <;> first | rfl | (exfalso; linarith)
  · intro h1
    rw [LabelFromScore_en, LabelFromScore_other s "zh" (by decide)]
    constructor <;> split_ifs <;> first | rfl | (exfalso; linarith)
  · intro lang
    by_cases hl : lang = "en"
    · rw [hl, LabelFromScore_en]
      split_ifs <;> decide
    · rw [LabelFromScore_other s lang hl]
      split_ifs <;> decide

/-- Witness for C6: the score 50 is Neutral in both tables and a score is
never the no-data marker. -/
theorem C6_witness :
    (LabelFromScore (some 50) "en" = "Neutral" ∧ LabelFromScore (some 50) "zh" = "中性") ∧
    LabelFromScore none "fr" = "-" ∧
    LabelFromScore (some 50) "fr" ≠ "-" := by
  refine ⟨(C6_label_thresholds 50).1.2.2.1 (by norm_num) (by norm_num),
    (C6_label_thresholds 50).2.1 "fr", (C6_label_thresholds 50).2.2 "fr"⟩

/-! ## Claim C10 -/

/-- Claim C10: every language other than "en" (including the empty string)
silently selects the Chinese table: the label equals the "zh" label, follows
the Chinese threshold table, and is never an error marker. -/
theorem C10_language_fallback (s : ℚ) (lang : String) (hl : lang ≠ "en") :
    LabelFromScore (some s) lang = LabelFromScore (some s) "zh" ∧
    (s < 25 → LabelFromScore (some s) lang = "极度恐惧") ∧
    (25 ≤ s → s < 45 → LabelFromScore (some s) lang = "恐惧") ∧
    (45 ≤ s → s ≤ 55 → LabelFromScore (some s) lang = "中性") ∧
    (55 < s → s ≤ 75 → LabelFromScore (some s) lang = "贪婪") ∧
    (75 < s → LabelFromScore (some s) lang = "极度贪婪") ∧
    LabelFromScore (some s) lang ≠ "-" := by
  have hz : LabelFromScore (some s) lang = LabelFromScore (some s) "zh" := by
    rw [LabelFromScore_other s lang hl, LabelFromScore_other s "zh" (by decide)]
  refine ⟨hz, ?_, ?_, ?_, ?_, ?_, ?_⟩
  · intro h1
    rw [LabelFromScore_other s lang hl]
    split_ifs
    rfl
  · intro h1 h2
    rw [LabelFromScore_other s lang hl]
    split_ifs <;> first | rfl | (exfalso; linarith)
  · intro h1 h2
    rw [LabelFromScore_other s lang hl]
    split_ifs <;> first | rfl | (exfalso; linarith)
  · intro h1 h2
    rw [LabelFromScore_other s lang hl]
    split_ifs <;> first | rfl | (exfalso; linarith)
  · intro h1
    rw [LabelFromScore_other s lang hl]
    split_ifs <;> first | rfl | (exfalso; linarith)
  · rw [LabelFromScore_other s lang hl]
    split_ifs <;> decide

/-- Witness for C10: the empty language string falls back to the Chinese
table; a score of 80 labels as Chinese Extreme Greed. -/
theorem C10_witness :
    LabelFromScore (some 80) "" = LabelFromScore (some 80) "zh" ∧
    LabelFromScore (some 80) "" = "极度贪婪" := by
  have h := C10_language_fallback 80 "" (by simp)
  exact ⟨h.1, h.2.2.2.2.2.1 (by norm_num)⟩

end Stock
